import Mathlib

/-!
Shallow embedding of the `tranzaktionz` transaction-processing program.

The source is a Rust program with three core modules:
* `src/transaction.rs` — the `TransactionType` enum and `Transaction` record;
* `src/client.rs` — the per-client `Client` ledger and its operations
  (`deposit`, `withdraw`, `dispute`, `resolve`, `chargeback`, dispatched
  through the single entry point `make_tx`);
* `src/main.rs` — `process_transactions`, the fold of an ordered transaction
  list into a `BTreeMap<u16, Client>` registry with a per-record error policy.

Modelling choices:
* `rust_decimal::Decimal` amounts become `Rat` (the source relies only on
  exact add/subtract/compare, which `Rat` models exactly).
* `u16` client ids and `u32` tx ids become `Nat` (only equality and ordering
  are used, never wrapping arithmetic).
* `BTreeMap` becomes an association list kept sorted by key
  (`btFind` / `btInsert` / `btUpdate` below); iteration order of the list is
  the map's iteration order, i.e. ascending key order.
* A Rust method `fn f(&mut self, ...) -> Result<(), Error>` becomes a
  function `Client → ... → Client × Option Error`: the first component is the
  state of `self` when the method returns (also on the error path, where Rust
  keeps any mutations already performed), the second is `none` for `Ok(())`
  and `some e` for `Err(e)`.
-/

namespace Tz

/-- Rust `TransactionType` from src/transaction.rs. -/
inductive TransactionType
  | Deposit
  | Withdrawal
  | Dispute
  | Resolve
  | Chargeback
  deriving DecidableEq

/-- Rust `Error` from src/error.rs (the variants the core can produce; the
`CSV` adapter-level variant carries a foreign error and is out of scope). -/
inductive Error
  | ClientNotFound (client : Nat)
  | NoFunds (client : Nat) (available requested : Rat)
  | WithoutAmount
  | WithAmount
  | ClientLocked
  | TransactionNotFound (t : Nat)
  | InvalidTxType (k : TransactionType)
  | TxNotDisputed (t : Nat)
  deriving DecidableEq

/-- Rust `Transaction` from src/transaction.rs. -/
structure Transaction where
  tx_type : TransactionType
  client : Nat
  tx : Nat
  amount : Option Rat
  disputed : Bool
  deriving DecidableEq

/-- Rust `Transaction::dispute` (sets the `disputed` flag). -/
def Transaction.dispute (t : Transaction) : Transaction :=
  { t with disputed := true }

/-- Rust `Transaction::is_disputed`. -/
def Transaction.is_disputed (t : Transaction) : Bool :=
  t.disputed

/-- Rust `Transaction::get_amount_or_err`. -/
def Transaction.get_amount_or_err (t : Transaction) : Except Error Rat :=
  match t.amount with
  | none => .error .WithoutAmount
  | some a => .ok a

/-- Rust `BTreeMap::get` on the sorted-association-list model. -/
def btFind {α : Type} (m : List (Nat × α)) (k : Nat) : Option α :=
  match m with
  | [] => none
  | (k', v) :: rest => if k = k' then some v else btFind rest k

/-- Rust `BTreeMap::insert` on the sorted-association-list model: replaces the
value when the key is present, otherwise inserts at the sorted position. -/
def btInsert {α : Type} (m : List (Nat × α)) (k : Nat) (v : α) : List (Nat × α) :=
  match m with
  | [] => [(k, v)]
  | (k', v') :: rest =>
    if k < k' then (k, v) :: (k', v') :: rest
    else if k = k' then (k, v) :: rest
    else (k', v') :: btInsert rest k v

/-- In-place update of the value stored at `k` (Rust `get_mut` followed by a
mutation through the reference). -/
def btUpdate {α : Type} (m : List (Nat × α)) (k : Nat) (f : α → α) : List (Nat × α) :=
  m.map (fun p => if p.1 = k then (p.1, f p.2) else p)

/-- Rust `Client` from src/client.rs. -/
structure Client where
  client : Nat
  available : Rat
  held : Rat
  total : Rat
  locked : Bool
  transactions : List (Nat × Transaction)
  deriving DecidableEq

namespace Client

/-- Rust `Client::new`. -/
def new (id : Nat) : Client :=
  { client := id, available := 0, held := 0, total := 0, locked := false,
    transactions := [] }

/-- Rust `Client::can_make_tx`: `Err(ClientLocked)` when the account is locked. -/
def can_make_tx (c : Client) : Option Error :=
  if c.locked then some .ClientLocked else none

/-- Rust `Client::save_tx`. -/
def save_tx (c : Client) (t : Transaction) : Client :=
  { c with transactions := btInsert c.transactions t.tx t }

/-- Rust `Client::deposit`. -/
def deposit (c : Client) (amount : Rat) : Client × Option Error :=
  match c.can_make_tx with
  | some e => (c, some e)
  | none =>
    ({ c with available := c.available + amount, total := c.total + amount },
     none)

/-- Rust `Client::withdraw`. -/
def withdraw (c : Client) (amount : Rat) : Client × Option Error :=
  match c.can_make_tx with
  | some e => (c, some e)
  | none =>
    if c.available - amount < 0 then
      (c, some (.NoFunds c.client c.available amount))
    else
      ({ c with available := c.available - amount, total := c.total - amount },
       none)

/-- Rust `Client::get_tx`. -/
def get_tx (c : Client) (tx_id : Nat) : Except Error Transaction :=
  match btFind c.transactions tx_id with
  | none => .error (.TransactionNotFound tx_id)
  | some t => .ok t

/-- Rust `Client::tx_is_referrable`: only Deposit/Withdrawal may be referred. -/
def tx_is_referrable (c : Client) (tx_id : Nat) : Option Error :=
  match c.get_tx tx_id with
  | .error e => some e
  | .ok t =>
    match t.tx_type with
    | .Deposit => none
    | .Withdrawal => none
    | k => some (.InvalidTxType k)

/-- Rust `Client::dispute`. Mirrors the source order faithfully: the stored
transaction's `disputed` flag is set before `get_amount_or_err` is consulted,
so on the missing-amount error path the flag mutation is kept. -/
def dispute (c : Client) (tx_id : Nat) : Client × Option Error :=
  match c.can_make_tx with
  | some e => (c, some e)
  | none =>
  match c.tx_is_referrable tx_id with
  | some e => (c, some e)
  | none =>
  match c.get_tx tx_id with
  | .error e => (c, some e)
  | .ok t =>
    let t' := t.dispute
    let c' := { c with transactions := btUpdate c.transactions tx_id Transaction.dispute }
    match t'.get_amount_or_err with
    | .error e => (c', some e)
    | .ok amount =>
      ({ c' with available := c'.available - amount, held := c'.held + amount },
       none)

/-- Rust `Client::resolve`. -/
def resolve (c : Client) (tx_id : Nat) : Client × Option Error :=
  match c.can_make_tx with
  | some e => (c, some e)
  | none =>
  match c.tx_is_referrable tx_id with
  | some e => (c, some e)
  | none =>
  match c.get_tx tx_id with
  | .error e => (c, some e)
  | .ok t =>
    if !t.is_disputed then (c, some (.TxNotDisputed tx_id))
    else
      match t.get_amount_or_err with
      | .error e => (c, some e)
      | .ok amount =>
        ({ c with available := c.available + amount, held := c.held - amount },
         none)

/-- Rust `Client::chargeback`. Note the source performs no `can_make_tx` and no
`tx_is_referrable` check here, and always subtracts (see the NOTE comment in
src/client.rs). -/
def chargeback (c : Client) (tx_id : Nat) : Client × Option Error :=
  match c.get_tx tx_id with
  | .error e => (c, some e)
  | .ok t =>
    if !t.is_disputed then (c, some (.TxNotDisputed tx_id))
    else
      match t.get_amount_or_err with
      | .error e => (c, some e)
      | .ok amount =>
        ({ c with held := c.held - amount, total := c.total - amount,
                  locked := true },
         none)

/-- Rust `Client::make_tx`, the single public entry point. -/
def make_tx (c : Client) (t : Transaction) : Client × Option Error :=
  match c.can_make_tx with
  | some e => (c, some e)
  | none =>
  match t.tx_type with
  | .Deposit =>
    match t.amount with
    | some a =>
      match c.deposit a with
      | (c', none) => (c'.save_tx t, none)
      | (c', some e) => (c', some e)
    | none => (c, some .WithoutAmount)
  | .Withdrawal =>
    match t.amount with
    | some a =>
      match c.withdraw a with
      | (c', none) => (c'.save_tx t, none)
      | (c', some e) => (c', some e)
    | none => (c, some .WithoutAmount)
  | .Dispute =>
    match t.amount with
    | some _ => (c, some .WithAmount)
    | none => c.dispute t.tx
  | .Resolve =>
    match t.amount with
    | some _ => (c, some .WithAmount)
    | none => c.resolve t.tx
  | .Chargeback =>
    match t.amount with
    | some _ => (c, some .WithAmount)
    | none => c.chargeback t.tx

/-- Fold a sequence of transactions through `make_tx`, keeping the state a
failed call leaves behind (as the Rust caller does with its long-lived
`Client` value). -/
def apply_all (c : Client) : List Transaction → Client
  | [] => c
  | t :: rest => ((c.make_tx t).1).apply_all rest

end Client

/-- The error policy of `process_transactions` in src/main.rs: these error
kinds are swallowed and processing continues with the next record. -/
def recoverable (e : Error) : Bool :=
  match e with
  | .NoFunds _ _ _ => true
  | .TransactionNotFound _ => true
  | .TxNotDisputed _ => true
  | _ => false

/-- Rust `clients_map.entry(tx.client).or_insert(Client::new(tx.client))` from
src/main.rs: insert a fresh zero-balance client when absent. -/
def or_insert (m : List (Nat × Client)) (id : Nat) : List (Nat × Client) :=
  match btFind m id with
  | some _ => m
  | none => btInsert m id (Client.new id)

/-- Rust `process_transactions` from src/main.rs, restricted to its core: the fold
of the decoded transaction sequence into the `BTreeMap<u16, Client>` registry.
Returns the final registry (whose list order is the map's iteration order,
i.e. what the output loop serializes) or the first fatal error. -/
def process_transactions : List Transaction → List (Nat × Client) →
    Except Error (List (Nat × Client))
  | [], m => .ok m
  | t :: rest, m =>
    let m1 := or_insert m t.client
    match btFind m1 t.client with
    | none => .error (.ClientNotFound t.client)
    | some c =>
      match c.make_tx t with
      | (c', none) => process_transactions rest (btInsert m1 t.client c')
      | (c', some e) =>
        if recoverable e then process_transactions rest (btInsert m1 t.client c')
        else .error e

/-- The first-seen order of client ids in an input sequence (the order in
which each client id first appears). -/
def firstSeen (txs : List Transaction) : List Nat :=
  txs.foldl (fun acc t => if t.client ∈ acc then acc else acc ++ [t.client]) []

end Tz

namespace Tz

section Proofs

attribute [local semireducible] Rat.add Rat.sub Rat.mul Rat.inv Rat.ofScientific

/-- The balance invariant of an account ledger. -/
def Client.balInv (c : Client) : Prop :=
  c.total = c.available + c.held

theorem balInv_new (id : Nat) : (Client.new id).balInv := by
  simp [Client.new, Client.balInv]

theorem deposit_balInv (c : Client) (a : Rat) (h : c.balInv) :
    ((c.deposit a).1).balInv := by
  unfold Client.deposit
  split
  · exact h
  · simp only [Client.balInv] at h ⊢
    simp only [h]
    ring

theorem withdraw_balInv (c : Client) (a : Rat) (h : c.balInv) :
    ((c.withdraw a).1).balInv := by
  unfold Client.withdraw
  split
  · exact h
  · split
    · exact h
    · simp only [Client.balInv] at h ⊢
      simp only [h]
      ring

theorem dispute_balInv (c : Client) (i : Nat) (h : c.balInv) :
    ((c.dispute i).1).balInv := by
  unfold Client.dispute
  split
  · exact h
  split
  · exact h
  split
  · exact h
  rename_i t heq
  cases htam : t.amount with
  | none =>
    simp only [Transaction.get_amount_or_err, Transaction.dispute, htam]
    exact h
  | some a =>
    simp only [Transaction.get_amount_or_err, Transaction.dispute, htam]
    simp only [Client.balInv] at h ⊢
    simp only [h]
    ring

theorem resolve_balInv (c : Client) (i : Nat) (h : c.balInv) :
    ((c.resolve i).1).balInv := by
  unfold Client.resolve
  split
  · exact h
  split
  · exact h
  split
  · exact h
  rename_i t heq
  split
  · exact h
  cases htam : t.amount with
  | none =>
    simp only [Transaction.get_amount_or_err, htam]
    exact h
  | some a =>
    simp only [Transaction.get_amount_or_err, htam]
    simp only [Client.balInv] at h ⊢
    simp only [h]
    ring

theorem chargeback_balInv (c : Client) (i : Nat) (h : c.balInv) :
    ((c.chargeback i).1).balInv := by
  unfold Client.chargeback
  split
  · exact h
  rename_i t heq
  split
  · exact h
  cases htam : t.amount with
  | none =>
    simp only [Transaction.get_amount_or_err, htam]
    exact h
  | some a =>
    simp only [Transaction.get_amount_or_err, htam]
    simp only [Client.balInv] at h ⊢
    simp only [h]
    ring

theorem save_tx_balInv (c : Client) (t : Transaction) (h : c.balInv) :
    (c.save_tx t).balInv := by
  simpa [Client.save_tx, Client.balInv] using h

theorem make_tx_balInv (c : Client) (t : Transaction) (h : c.balInv) :
    ((c.make_tx t).1).balInv := by
  unfold Client.make_tx
  split
  · exact h
  split
  · -- Deposit
    split
    · rename_i a ha
      cases hd : c.deposit a with
      | mk c' r =>
        cases r with
        | none =>
          have := deposit_balInv c a h
          rw [hd] at this
          exact save_tx_balInv _ _ this
        | some e =>
          have := deposit_balInv c a h
          rw [hd] at this
          exact this
    · exact h
  · -- Withdrawal
    split
    · rename_i a ha
      cases hd : c.withdraw a with
      | mk c' r =>
        cases r with
        | none =>
          have := withdraw_balInv c a h
          rw [hd] at this
          exact save_tx_balInv _ _ this
        | some e =>
          have := withdraw_balInv c a h
          rw [hd] at this
          exact this
    · exact h
  · split
    · exact h
    · exact dispute_balInv _ _ h
  · split
    · exact h
    · exact resolve_balInv _ _ h
  · split
    · exact h
    · exact chargeback_balInv _ _ h

theorem apply_all_balInv (txs : List Transaction) (c : Client) (h : c.balInv) :
    (c.apply_all txs).balInv := by
  induction txs generalizing c with
  | nil => exact h
  | cons t rest ih => exact ih _ (make_tx_balInv c t h)

/-- C1: for every ledger reachable from the initial zero-balance state by any
sequence of `make_tx` calls, `total = available + held` holds after every
call. -/
theorem c1_total_invariant (id : Nat) (txs : List Transaction) :
    ((Client.new id).apply_all txs).total =
      ((Client.new id).apply_all txs).available +
        ((Client.new id).apply_all txs).held :=
  apply_all_balInv txs (Client.new id) (balInv_new id)

theorem locked_make_tx_eq (c : Client) (t : Transaction) (h : c.locked = true) :
    c.make_tx t = (c, some .ClientLocked) := by
  unfold Client.make_tx Client.can_make_tx
  simp [h]

/-- C2 counterexample: Chargeback through `make_tx` is not independent of the
`locked` flag. On the reachable account below, transaction 2 is a stored
Deposit that is currently disputed (so referrable and disputed both hold), yet
`make_tx` of a Chargeback for it fails with `ClientLocked`; flipping only the
`locked` flag makes the same call succeed. -/
theorem c2_counterexample :
    (btFind ((Client.new 1).apply_all
        [⟨.Deposit, 1, 1, some 1, false⟩, ⟨.Deposit, 1, 2, some 1, false⟩,
         ⟨.Dispute, 1, 1, none, false⟩, ⟨.Dispute, 1, 2, none, false⟩,
         ⟨.Chargeback, 1, 1, none, false⟩]).transactions 2).map
        (fun t => (t.tx_type, t.disputed)) = some (.Deposit, true) ∧
    (((Client.new 1).apply_all
        [⟨.Deposit, 1, 1, some 1, false⟩, ⟨.Deposit, 1, 2, some 1, false⟩,
         ⟨.Dispute, 1, 1, none, false⟩, ⟨.Dispute, 1, 2, none, false⟩,
         ⟨.Chargeback, 1, 1, none, false⟩]).make_tx
        ⟨.Chargeback, 1, 2, none, false⟩).2 = some .ClientLocked ∧
    (({ (Client.new 1).apply_all
        [⟨.Deposit, 1, 1, some 1, false⟩, ⟨.Deposit, 1, 2, some 1, false⟩,
         ⟨.Dispute, 1, 1, none, false⟩, ⟨.Dispute, 1, 2, none, false⟩,
         ⟨.Chargeback, 1, 1, none, false⟩] with locked := false }).make_tx
        ⟨.Chargeback, 1, 2, none, false⟩).2 = none := by
  decide

/-- C2 amended: Chargeback submitted through the single entry point `make_tx`
is gated by the account's `locked` flag exactly like every other kind: on a
locked account `make_tx` returns `ClientLocked` for every transaction,
Chargeback included, leaving the ledger untouched (only the inner `chargeback`
helper performs no locked check). -/
theorem c2_locked_gates_make_tx (c : Client) (t : Transaction)
    (h : c.locked = true) : c.make_tx t = (c, some .ClientLocked) := by
  unfold Client.make_tx Client.can_make_tx
  simp [h]

theorem c2_locked_gates_make_tx_witness :
    ({ Client.new 1 with locked := true }).make_tx
        ⟨.Chargeback, 1, 1, none, false⟩ =
      ({ Client.new 1 with locked := true }, some .ClientLocked) :=
  c2_locked_gates_make_tx { Client.new 1 with locked := true }
    ⟨.Chargeback, 1, 1, none, false⟩ rfl

theorem make_tx_locked_mono (c : Client) (t : Transaction)
    (h : c.locked = true) : ((c.make_tx t).1).locked = true := by
  rw [locked_make_tx_eq c t h]
  exact h

/-- C8: the `locked` flag is monotonic: once an account is locked, no later
sequence of `make_tx` calls ever unlocks it. -/
theorem c8_locked_monotonic (c : Client) (txs : List Transaction)
    (h : c.locked = true) : (c.apply_all txs).locked = true := by
  induction txs generalizing c with
  | nil => exact h
  | cons t rest ih => exact ih _ (make_tx_locked_mono c t h)

theorem c8_locked_monotonic_witness :
    ((({ Client.new 1 with locked := true }) : Client).apply_all
        [⟨.Deposit, 1, 1, some 1, false⟩]).locked = true :=
  c8_locked_monotonic { Client.new 1 with locked := true }
    [⟨.Deposit, 1, 1, some 1, false⟩] rfl

theorem btFind_mem {α : Type} (m : List (Nat × α)) (k : Nat) (v : α)
    (h : btFind m k = some v) : (k, v) ∈ m := by
  induction m with
  | nil => simp [btFind] at h
  | cons q rest ih =>
    unfold btFind at h
    split at h
    · rename_i hk
      obtain rfl : q.2 = v := by simpa using h
      simp [hk]
    · simp [ih h]

theorem get_amount_some {t : Transaction} {a : Rat} (h : t.amount = some a) :
    t.get_amount_or_err = .ok a := by
  simp [Transaction.get_amount_or_err, h]

theorem get_amount_err {t : Transaction} {e : Error}
    (h : t.get_amount_or_err = .error e) :
    t.amount = none ∧ e = .WithoutAmount := by
  unfold Transaction.get_amount_or_err at h
  split at h
  · simp_all
  · simp_all

theorem deposit_err (c : Client) (a : Rat) (c' : Client) (e : Error)
    (h : c.deposit a = (c', some e)) : c' = c := by
  unfold Client.deposit at h
  split at h
  · simpa using (congrArg Prod.fst h).symm
  · simp at h

theorem withdraw_err (c : Client) (a : Rat) (c' : Client) (e : Error)
    (h : c.withdraw a = (c', some e)) : c' = c := by
  unfold Client.withdraw at h
  split at h
  · simpa using (congrArg Prod.fst h).symm
  · split at h
    · simpa using (congrArg Prod.fst h).symm
    · simp at h

theorem resolve_err (c : Client) (i : Nat) (c' : Client) (e : Error)
    (h : c.resolve i = (c', some e)) : c' = c := by
  unfold Client.resolve at h
  split at h
  · simpa using (congrArg Prod.fst h).symm
  split at h
  · simpa using (congrArg Prod.fst h).symm
  split at h
  · simpa using (congrArg Prod.fst h).symm
  split at h
  · simpa using (congrArg Prod.fst h).symm
  split at h
  · simpa using (congrArg Prod.fst h).symm
  · simp at h

theorem chargeback_err (c : Client) (i : Nat) (c' : Client) (e : Error)
    (h : c.chargeback i = (c', some e)) : c' = c := by
  unfold Client.chargeback at h
  split at h
  · simpa using (congrArg Prod.fst h).symm
  split at h
  · simpa using (congrArg Prod.fst h).symm
  split at h
  · simpa using (congrArg Prod.fst h).symm
  · simp at h

theorem get_tx_ok (c : Client) (i : Nat) (t : Transaction)
    (h : c.get_tx i = .ok t) : btFind c.transactions i = some t := by
  unfold Client.get_tx at h
  split at h
  · simp at h
  · rename_i hf
    injection h with h
    rw [← h]
    exact hf

theorem dispute_err (c : Client) (i : Nat) (c' : Client) (e : Error)
    (h : c.dispute i = (c', some e)) :
    c' = c ∨
      (∃ t, btFind c.transactions i = some t ∧ t.amount = none ∧
        e = .WithoutAmount) := by
  unfold Client.dispute at h
  split at h
  · exact .inl (by simpa using (congrArg Prod.fst h).symm)
  split at h
  · exact .inl (by simpa using (congrArg Prod.fst h).symm)
  split at h
  · exact .inl (by simpa using (congrArg Prod.fst h).symm)
  rename_i t hget
  dsimp only at h
  split at h
  · rename_i e' herr
    obtain ⟨hnone, rfl⟩ := get_amount_err herr
    have hsnd : (some Error.WithoutAmount : Option Error) = some e :=
      congrArg Prod.snd h
    injection hsnd with hsnd
    refine .inr ⟨t, get_tx_ok c i t hget, ?_, hsnd.symm⟩
    simpa [Transaction.dispute] using hnone
  · simp at h

theorem make_tx_err (c : Client) (t : Transaction) (c' : Client) (e : Error)
    (h : c.make_tx t = (c', some e)) :
    c' = c ∨
      (∃ tv, btFind c.transactions t.tx = some tv ∧ tv.amount = none ∧
        e = .WithoutAmount) := by
  unfold Client.make_tx at h
  split at h
  · exact .inl (by simpa using (congrArg Prod.fst h).symm)
  split at h
  all_goals split at h
  · rename_i a ha
    cases hd : c.deposit a with
    | mk cd r =>
      rw [hd] at h
      cases r with
      | none => simp at h
      | some e' =>
        have h1 : cd = c' := by simpa using congrArg Prod.fst h
        subst h1
        exact .inl (deposit_err c a cd e' hd)
  · exact .inl (by simpa using (congrArg Prod.fst h).symm)
  · rename_i a ha
    cases hd : c.withdraw a with
    | mk cd r =>
      rw [hd] at h
      cases r with
      | none => simp at h
      | some e' =>
        have h1 : cd = c' := by simpa using congrArg Prod.fst h
        subst h1
        exact .inl (withdraw_err c a cd e' hd)
  · exact .inl (by simpa using (congrArg Prod.fst h).symm)
  · exact .inl (by simpa using (congrArg Prod.fst h).symm)
  · exact dispute_err c t.tx c' e h
  · exact .inl (by simpa using (congrArg Prod.fst h).symm)
  · exact .inl (resolve_err c t.tx c' e h)
  · exact .inl (by simpa using (congrArg Prod.fst h).symm)
  · exact .inl (chargeback_err c t.tx c' e h)

/-- C6 counterexample: `make_tx` is not atomic on every ledger state. On a
ledger holding a stored Deposit without an amount (a state no `make_tx`
sequence produces, but the claim quantifies over every ledger state), a
Dispute referencing it returns `WithoutAmount` after having already set the
stored transaction's `disputed` flag, so the ledger differs from before the
call. -/
theorem c6_counterexample :
    ((⟨1, 0, 0, 0, false, [(1, ⟨.Deposit, 1, 1, none, false⟩)]⟩ : Client).make_tx
        ⟨.Dispute, 1, 1, none, false⟩).2 = some .WithoutAmount ∧
    ((⟨1, 0, 0, 0, false, [(1, ⟨.Deposit, 1, 1, none, false⟩)]⟩ : Client).make_tx
        ⟨.Dispute, 1, 1, none, false⟩).1 ≠
      (⟨1, 0, 0, 0, false, [(1, ⟨.Deposit, 1, 1, none, false⟩)]⟩ : Client) := by
  decide

/-- C6 amended: `make_tx` is atomic on every ledger state whose stored
transactions all carry an amount (every state reachable through `make_tx`
satisfies this): if the call returns an error, the ledger — balances, locked
flag, history and all disputed flags — is exactly as it was before the call. -/
theorem c6_atomicity (c : Client) (t : Transaction) (c' : Client) (e : Error)
    (hAmt : ∀ p ∈ c.transactions, p.2.amount ≠ none)
    (h : c.make_tx t = (c', some e)) : c' = c := by
  rcases make_tx_err c t c' e h with h1 | ⟨tv, hf, hnone, _⟩
  · exact h1
  · exact absurd hnone (hAmt (t.tx, tv) (btFind_mem _ _ _ hf))

theorem c6_atomicity_witness :
    ((Client.new 1).make_tx ⟨.Withdrawal, 1, 1, some 10, false⟩).1 =
      Client.new 1 :=
  c6_atomicity (Client.new 1) ⟨.Withdrawal, 1, 1, some 10, false⟩
    ((Client.new 1).make_tx ⟨.Withdrawal, 1, 1, some 10, false⟩).1
    (.NoFunds 1 0 10) (by simp [Client.new]) (by decide)

theorem recoverable_iff (e : Error) :
    recoverable e = true ↔
      ((∃ cl av rq, e = .NoFunds cl av rq) ∨ (∃ i, e = .TransactionNotFound i) ∨
        (∃ i, e = .TxNotDisputed i)) := by
  cases e <;> simp [recoverable]

theorem make_tx_recoverable_eq (c : Client) (t : Transaction) (c' : Client)
    (e : Error) (h : c.make_tx t = (c', some e))
    (hr : recoverable e = true) : c' = c := by
  rcases make_tx_err c t c' e h with h1 | ⟨tv, hf, hnone, rfl⟩
  · exact h1
  · simp [recoverable] at hr

/-- C5: the stream processor swallows exactly the recoverable failures —
`NoFunds` (insufficient funds on Withdrawal), `TransactionNotFound`
(Dispute/Resolve/Chargeback on an unknown tx id) and `TxNotDisputed`
(Resolve/Chargeback on an undisputed transaction) — leaving the referenced
ledger unchanged and continuing with the next record; every other `make_tx`
failure aborts the whole run with that error. -/
theorem c5_error_policy (t : Transaction) (rest : List Transaction)
    (m : List (Nat × Client)) (c c' : Client) (e : Error)
    (hc : btFind (or_insert m t.client) t.client = some c)
    (hmk : c.make_tx t = (c', some e)) :
    (((∃ cl av rq, e = .NoFunds cl av rq) ∨ (∃ i, e = .TransactionNotFound i) ∨
        (∃ i, e = .TxNotDisputed i)) →
      c' = c ∧
        process_transactions (t :: rest) m =
          process_transactions rest
            (btInsert (or_insert m t.client) t.client c)) ∧
    ((¬ ((∃ cl av rq, e = .NoFunds cl av rq) ∨
        (∃ i, e = .TransactionNotFound i) ∨ (∃ i, e = .TxNotDisputed i))) →
      process_transactions (t :: rest) m = .error e) := by
  have hstep : process_transactions (t :: rest) m =
      if recoverable e then
        process_transactions rest (btInsert (or_insert m t.client) t.client c')
      else .error e := by
    conv_lhs => unfold process_transactions
    dsimp only
    rw [hc]
    dsimp only
    rw [hmk]
  constructor
  · intro hrec
    have hr : recoverable e = true := (recoverable_iff e).mpr hrec
    have hceq : c' = c := make_tx_recoverable_eq c t c' e hmk hr
    subst hceq
    rw [hstep, hr]
    simp
  · intro hfat
    have hr : recoverable e = false := by
      cases hre : recoverable e
      · rfl
      · exact absurd ((recoverable_iff e).mp hre) hfat
    rw [hstep, hr]
    simp

theorem c5_error_policy_witness :
    process_transactions [⟨.Withdrawal, 1, 1, some 10, false⟩] [] =
      process_transactions []
        (btInsert (or_insert [] 1) 1 (Client.new 1)) :=
  ((c5_error_policy ⟨.Withdrawal, 1, 1, some 10, false⟩ [] []
      (Client.new 1) (Client.new 1) (.NoFunds 1 0 10) (by decide) (by decide)).1
    (.inl ⟨1, 0, 10, rfl⟩)).2

/-- C4: a successful `chargeback` always subtracts the referenced
transaction's amount from `held` and `total` (uniformly, with no case split on
whether the referenced transaction is a Deposit or a Withdrawal — the function
never inspects its kind), sets `locked`, and leaves `available`, the client id
and the history untouched. -/
theorem c4_chargeback_effect (c : Client) (i : Nat) (c' : Client)
    (h : c.chargeback i = (c', none)) :
    ∃ t a, btFind c.transactions i = some t ∧ t.amount = some a ∧
      c'.held = c.held - a ∧ c'.total = c.total - a ∧
      c'.available = c.available ∧ c'.locked = true ∧
      c'.transactions = c.transactions ∧ c'.client = c.client := by
  unfold Client.chargeback at h
  split at h
  · simp at h
  rename_i t hget
  split at h
  · simp at h
  split at h
  · simp at h
  rename_i a hamt
  have hc : _ = c' := congrArg Prod.fst h
  refine ⟨t, a, get_tx_ok c i t hget, ?_, ?_⟩
  · unfold Transaction.get_amount_or_err at hamt
    cases htam : t.amount with
    | none => rw [htam] at hamt; simp at hamt
    | some b => rw [htam] at hamt; injection hamt with hb; rw [hb]
  · rw [← hc]
    simp

theorem c4_chargeback_effect_witness :
    ∃ t a,
      btFind ((Client.new 1).apply_all
          [⟨.Deposit, 1, 1, some 1, false⟩,
           ⟨.Dispute, 1, 1, none, false⟩]).transactions 1 = some t ∧
      t.amount = some a ∧
      ((((Client.new 1).apply_all
          [⟨.Deposit, 1, 1, some 1, false⟩,
           ⟨.Dispute, 1, 1, none, false⟩]).chargeback 1).1).held =
        ((Client.new 1).apply_all
          [⟨.Deposit, 1, 1, some 1, false⟩,
           ⟨.Dispute, 1, 1, none, false⟩]).held - a ∧
      ((((Client.new 1).apply_all
          [⟨.Deposit, 1, 1, some 1, false⟩,
           ⟨.Dispute, 1, 1, none, false⟩]).chargeback 1).1).total =
        ((Client.new 1).apply_all
          [⟨.Deposit, 1, 1, some 1, false⟩,
           ⟨.Dispute, 1, 1, none, false⟩]).total - a ∧
      ((((Client.new 1).apply_all
          [⟨.Deposit, 1, 1, some 1, false⟩,
           ⟨.Dispute, 1, 1, none, false⟩]).chargeback 1).1).available =
        ((Client.new 1).apply_all
          [⟨.Deposit, 1, 1, some 1, false⟩,
           ⟨.Dispute, 1, 1, none, false⟩]).available ∧
      ((((Client.new 1).apply_all
          [⟨.Deposit, 1, 1, some 1, false⟩,
           ⟨.Dispute, 1, 1, none, false⟩]).chargeback 1).1).locked = true ∧
      ((((Client.new 1).apply_all
          [⟨.Deposit, 1, 1, some 1, false⟩,
           ⟨.Dispute, 1, 1, none, false⟩]).chargeback 1).1).transactions =
        ((Client.new 1).apply_all
          [⟨.Deposit, 1, 1, some 1, false⟩,
           ⟨.Dispute, 1, 1, none, false⟩]).transactions ∧
      ((((Client.new 1).apply_all
          [⟨.Deposit, 1, 1, some 1, false⟩,
           ⟨.Dispute, 1, 1, none, false⟩]).chargeback 1).1).client =
        ((Client.new 1).apply_all
          [⟨.Deposit, 1, 1, some 1, false⟩,
           ⟨.Dispute, 1, 1, none, false⟩]).client :=
  c4_chargeback_effect _ 1 _ (by decide)

theorem Transaction.dispute_amount (t : Transaction) :
    (t.dispute).amount = t.amount := rfl

theorem Transaction.dispute_tx_type (t : Transaction) :
    (t.dispute).tx_type = t.tx_type := rfl

theorem Transaction.dispute_disputed (t : Transaction) :
    (t.dispute).disputed = true := rfl

theorem btFind_btUpdate {α : Type} (m : List (Nat × α)) (k : Nat) (f : α → α) :
    btFind (btUpdate m k f) k = (btFind m k).map f := by
  induction m with
  | nil => simp [btFind, btUpdate]
  | cons q rest ih =>
    by_cases hk : q.1 = k
    · subst hk
      rcases q with ⟨qk, qv⟩
      simp only [btUpdate, List.map_cons]
      norm_num
      rw [btFind, btFind]
      norm_num
    · have hk2 : ¬ k = q.1 := fun h => hk h.symm
      simp only [btUpdate, List.map_cons, if_neg hk]
      unfold btFind
      simp only [if_neg hk2]
      exact ih

theorem tx_is_referrable_of_find (c : Client) (i : Nat) (t : Transaction)
    (hf : btFind c.transactions i = some t)
    (hk : t.tx_type = .Deposit ∨ t.tx_type = .Withdrawal) :
    c.tx_is_referrable i = none := by
  unfold Client.tx_is_referrable Client.get_tx
  rw [hf]
  rcases hk with hk | hk <;> simp [hk]

theorem get_tx_of_find (c : Client) (i : Nat) (t : Transaction)
    (hf : btFind c.transactions i = some t) : c.get_tx i = .ok t := by
  unfold Client.get_tx
  rw [hf]

/-- Exact successful behaviour of `dispute` on an unlocked ledger holding a
referrable transaction with an amount: no precondition on the current
`disputed` flag. -/
theorem dispute_spec (c : Client) (i : Nat) (t : Transaction) (a : Rat)
    (hl : c.locked = false) (hf : btFind c.transactions i = some t)
    (hk : t.tx_type = .Deposit ∨ t.tx_type = .Withdrawal)
    (ha : t.amount = some a) :
    c.dispute i =
      ({ c with transactions := btUpdate c.transactions i Transaction.dispute,
                available := c.available - a, held := c.held + a },
       none) := by
  unfold Client.dispute Client.can_make_tx
  rw [tx_is_referrable_of_find c i t hf hk, get_tx_of_find c i t hf]
  simp [hl, Transaction.get_amount_or_err, Transaction.dispute_amount, ha]

/-- Exact successful behaviour of `resolve` on an unlocked ledger holding a
referrable, currently-disputed transaction with an amount; note the stored
`disputed` flag is left `true`. -/
theorem resolve_spec (c : Client) (i : Nat) (t : Transaction) (a : Rat)
    (hl : c.locked = false) (hf : btFind c.transactions i = some t)
    (hk : t.tx_type = .Deposit ∨ t.tx_type = .Withdrawal)
    (ha : t.amount = some a) (hd : t.disputed = true) :
    c.resolve i =
      ({ c with available := c.available + a, held := c.held - a }, none) := by
  unfold Client.resolve Client.can_make_tx
  rw [tx_is_referrable_of_find c i t hf hk, get_tx_of_find c i t hf]
  simp [hl, Transaction.is_disputed, hd, Transaction.get_amount_or_err, ha]

/-- Exact successful behaviour of `chargeback` on a ledger holding a
currently-disputed transaction with an amount (no locked check, no
referrability check). -/
theorem chargeback_spec (c : Client) (i : Nat) (t : Transaction) (a : Rat)
    (hf : btFind c.transactions i = some t)
    (ha : t.amount = some a) (hd : t.disputed = true) :
    c.chargeback i =
      ({ c with held := c.held - a, total := c.total - a, locked := true },
       none) := by
  unfold Client.chargeback
  rw [get_tx_of_find c i t hf]
  simp [Transaction.is_disputed, hd, Transaction.get_amount_or_err, ha]

theorem Transaction.dispute_idem (t : Transaction) :
    (t.dispute).dispute = t.dispute := rfl

theorem dispute_step (c : Client) (i : Nat) (t : Transaction) (a : Rat)
    (hl : c.locked = false) (hf : btFind c.transactions i = some t)
    (hk : t.tx_type = .Deposit ∨ t.tx_type = .Withdrawal)
    (ha : t.amount = some a) :
    ∃ d, c.dispute i = (d, none) ∧ d.locked = c.locked ∧ d.total = c.total ∧
      d.available = c.available - a ∧ d.held = c.held + a ∧
      btFind d.transactions i = some t.dispute := by
  rw [dispute_spec c i t a hl hf hk ha]
  refine ⟨_, rfl, rfl, rfl, rfl, rfl, ?_⟩
  show btFind (btUpdate c.transactions i Transaction.dispute) i = some t.dispute
  rw [btFind_btUpdate, hf]
  rfl

theorem resolve_step (c : Client) (i : Nat) (t : Transaction) (a : Rat)
    (hl : c.locked = false) (hf : btFind c.transactions i = some t)
    (hk : t.tx_type = .Deposit ∨ t.tx_type = .Withdrawal)
    (ha : t.amount = some a) (hd : t.disputed = true) :
    ∃ d, c.resolve i = (d, none) ∧ d.locked = c.locked ∧ d.total = c.total ∧
      d.available = c.available + a ∧ d.held = c.held - a ∧
      d.transactions = c.transactions := by
  rw [resolve_spec c i t a hl hf hk ha hd]
  exact ⟨_, rfl, rfl, rfl, rfl, rfl, rfl⟩

/-- C7: on an unlocked ledger holding a referrable transaction with an
amount, the sequence Dispute; Resolve; Dispute; Resolve succeeds in full
(Resolve never clears the `disputed` flag, so the second Dispute and Resolve
are accepted), and the balances after the second Resolve equal those after
the first Resolve. -/
theorem c7_dispute_resolve_cycle (c : Client) (i : Nat) (t : Transaction)
    (a : Rat) (hl : c.locked = false)
    (hf : btFind c.transactions i = some t)
    (hk : t.tx_type = .Deposit ∨ t.tx_type = .Withdrawal)
    (ha : t.amount = some a) :
    ∃ c1 c2 c3 c4,
      c.dispute i = (c1, none) ∧ c1.resolve i = (c2, none) ∧
      c2.dispute i = (c3, none) ∧ c3.resolve i = (c4, none) ∧
      c4.available = c2.available ∧ c4.held = c2.held ∧
      c4.total = c2.total := by
  have hk' : (t.dispute).tx_type = .Deposit ∨ (t.dispute).tx_type = .Withdrawal := by
    simpa [Transaction.dispute_tx_type] using hk
  have ha' : (t.dispute).amount = some a := by
    simpa [Transaction.dispute_amount] using ha
  obtain ⟨c1, e1, l1, t1, a1, h1, f1⟩ := dispute_step c i t a hl hf hk ha
  have l1f : c1.locked = false := by rw [l1]; exact hl
  obtain ⟨c2, e2, l2, t2, a2, h2, f2⟩ :=
    resolve_step c1 i t.dispute a l1f f1 hk' ha' rfl
  have l2f : c2.locked = false := by rw [l2]; exact l1f
  have f2' : btFind c2.transactions i = some t.dispute := by rw [f2]; exact f1
  obtain ⟨c3, e3, l3, t3, a3, h3, f3⟩ := dispute_step c2 i t.dispute a l2f f2' hk' ha'
  have l3f : c3.locked = false := by rw [l3]; exact l2f
  have f3' : btFind c3.transactions i = some t.dispute := by
    rw [f3, Transaction.dispute_idem]
  obtain ⟨c4, e4, l4, t4, a4, h4, f4⟩ :=
    resolve_step c3 i t.dispute a l3f f3' hk' ha' rfl
  refine ⟨c1, c2, c3, c4, e1, e2, e3, e4, ?_, ?_, ?_⟩
  · rw [a4, a3]; ring
  · rw [h4, h3]; ring
  · rw [t4, t3]

theorem c7_dispute_resolve_cycle_witness :
    ∃ c1 c2 c3 c4,
      ((Client.new 1).apply_all [⟨.Deposit, 1, 1, some 1, false⟩]).dispute 1 =
        (c1, none) ∧
      c1.resolve 1 = (c2, none) ∧ c2.dispute 1 = (c3, none) ∧
      c3.resolve 1 = (c4, none) ∧
      c4.available = c2.available ∧ c4.held = c2.held ∧
      c4.total = c2.total :=
  c7_dispute_resolve_cycle _ 1 ⟨.Deposit, 1, 1, some 1, false⟩ 1
    (by decide) (by decide) (.inl rfl) rfl

/-- C10: `dispute` has no not-already-disputed precondition: on an unlocked
ledger holding a referrable transaction with amount `a` that is already
disputed, a second Dispute succeeds and again subtracts `a` from `available`
and adds `a` to `held` (so repeated disputes can drive `available`
negative). -/
theorem c10_redispute (c : Client) (i : Nat) (t : Transaction) (a : Rat)
    (hl : c.locked = false) (hf : btFind c.transactions i = some t)
    (hk : t.tx_type = .Deposit ∨ t.tx_type = .Withdrawal)
    (ha : t.amount = some a) (_hd : t.disputed = true) :
    c.dispute i =
      ({ c with transactions := btUpdate c.transactions i Transaction.dispute,
                available := c.available - a, held := c.held + a },
       none) :=
  dispute_spec c i t a hl hf hk ha

theorem c10_redispute_witness :
    ((Client.new 1).apply_all
        [⟨.Deposit, 1, 1, some 1, false⟩,
         ⟨.Dispute, 1, 1, none, false⟩]).dispute 1 =
      ({ (Client.new 1).apply_all
            [⟨.Deposit, 1, 1, some 1, false⟩, ⟨.Dispute, 1, 1, none, false⟩] with
          transactions :=
            btUpdate ((Client.new 1).apply_all
              [⟨.Deposit, 1, 1, some 1, false⟩,
               ⟨.Dispute, 1, 1, none, false⟩]).transactions 1
              Transaction.dispute,
          available :=
            ((Client.new 1).apply_all
              [⟨.Deposit, 1, 1, some 1, false⟩,
               ⟨.Dispute, 1, 1, none, false⟩]).available - 1,
          held :=
            ((Client.new 1).apply_all
              [⟨.Deposit, 1, 1, some 1, false⟩,
               ⟨.Dispute, 1, 1, none, false⟩]).held + 1 },
       none) ∧
    ((((Client.new 1).apply_all
        [⟨.Deposit, 1, 1, some 1, false⟩,
         ⟨.Dispute, 1, 1, none, false⟩]).dispute 1).1).available < 0 :=
  ⟨c10_redispute _ 1 ⟨.Deposit, 1, 1, some 1, true⟩ 1 (by decide) (by decide)
      (.inl rfl) rfl rfl,
    by decide⟩

/-- The history invariant: every stored transaction is a Deposit or a
Withdrawal and carries an amount. -/
def Client.txInv (c : Client) : Prop :=
  ∀ p ∈ c.transactions,
    (p.2.tx_type = .Deposit ∨ p.2.tx_type = .Withdrawal) ∧ p.2.amount ≠ none

theorem mem_btInsert {α : Type} {p : Nat × α} {m : List (Nat × α)} {k : Nat}
    {v : α} (h : p ∈ btInsert m k v) : p = (k, v) ∨ p ∈ m := by
  induction m with
  | nil => simpa [btInsert] using h
  | cons q rest ih =>
    unfold btInsert at h
    split at h
    · rcases List.mem_cons.mp h with h | h
      · exact .inl h
      · exact .inr h
    · split at h
      · rcases List.mem_cons.mp h with h | h
        · exact .inl h
        · exact .inr (List.mem_cons_of_mem q h)
      · rcases List.mem_cons.mp h with h | h
        · exact .inr (by simp [h])
        · rcases ih h with h | h
          · exact .inl h
          · exact .inr (List.mem_cons_of_mem q h)

theorem txInv_btUpdate_dispute (m : List (Nat × Transaction)) (i : Nat)
    (h : ∀ p ∈ m,
      (p.2.tx_type = .Deposit ∨ p.2.tx_type = .Withdrawal) ∧ p.2.amount ≠ none) :
    ∀ p ∈ btUpdate m i Transaction.dispute,
      (p.2.tx_type = .Deposit ∨ p.2.tx_type = .Withdrawal) ∧
        p.2.amount ≠ none := by
  intro p hp
  unfold btUpdate at hp
  rcases List.mem_map.mp hp with ⟨q, hq, rfl⟩
  by_cases hqi : q.1 = i
  · simpa [hqi, Transaction.dispute_tx_type, Transaction.dispute_amount]
      using h q hq
  · simpa [hqi] using h q hq

theorem deposit_transactions (c : Client) (a : Rat) :
    ((c.deposit a).1).transactions = c.transactions := by
  unfold Client.deposit
  split <;> rfl

theorem withdraw_transactions (c : Client) (a : Rat) :
    ((c.withdraw a).1).transactions = c.transactions := by
  unfold Client.withdraw
  split
  · rfl
  · split <;> rfl

theorem resolve_transactions (c : Client) (i : Nat) :
    ((c.resolve i).1).transactions = c.transactions := by
  unfold Client.resolve
  split
  · rfl
  split
  · rfl
  split
  · rfl
  split
  · rfl
  split <;> rfl

theorem chargeback_transactions (c : Client) (i : Nat) :
    ((c.chargeback i).1).transactions = c.transactions := by
  unfold Client.chargeback
  split
  · rfl
  split
  · rfl
  split <;> rfl

theorem dispute_txInv (c : Client) (i : Nat) (h : c.txInv) :
    ((c.dispute i).1).txInv := by
  unfold Client.dispute
  split
  · exact h
  split
  · exact h
  split
  · exact h
  dsimp only
  split
  · exact txInv_btUpdate_dispute c.transactions i h
  · exact txInv_btUpdate_dispute c.transactions i h

theorem save_tx_txInv (c : Client) (t : Transaction) (h : c.txInv)
    (hk : t.tx_type = .Deposit ∨ t.tx_type = .Withdrawal)
    (ha : t.amount ≠ none) : (c.save_tx t).txInv := by
  intro p hp
  unfold Client.save_tx at hp
  rcases mem_btInsert hp with rfl | hp
  · exact ⟨hk, ha⟩
  · exact h p hp

theorem make_tx_txInv (c : Client) (t : Transaction) (h : c.txInv) :
    ((c.make_tx t).1).txInv := by
  unfold Client.make_tx
  split
  · exact h
  split
  · -- Deposit
    split
    · rename_i a ha
      cases hd : c.deposit a with
      | mk cd r =>
        cases r with
        | none =>
          have ht : cd.transactions = c.transactions := by
            have := deposit_transactions c a
            rw [hd] at this
            exact this
          refine save_tx_txInv cd t ?_ (.inl (by rename_i hk _; exact hk)) (by simp [ha])
          intro p hp
          rw [ht] at hp
          exact h p hp
        | some e =>
          have := deposit_err c a cd e hd
          subst this
          exact h
    · exact h
  · -- Withdrawal
    split
    · rename_i a ha
      cases hd : c.withdraw a with
      | mk cd r =>
        cases r with
        | none =>
          have ht : cd.transactions = c.transactions := by
            have := withdraw_transactions c a
            rw [hd] at this
            exact this
          refine save_tx_txInv cd t ?_ (.inr (by rename_i hk _; exact hk)) (by simp [ha])
          intro p hp
          rw [ht] at hp
          exact h p hp
        | some e =>
          have := withdraw_err c a cd e hd
          subst this
          exact h
    · exact h
  · split
    · exact h
    · exact dispute_txInv c t.tx h
  · split
    · exact h
    · intro p hp
      rw [resolve_transactions c t.tx] at hp
      exact h p hp
  · split
    · exact h
    · intro p hp
      rw [chargeback_transactions c t.tx] at hp
      exact h p hp

theorem apply_all_txInv (txs : List Transaction) (c : Client) (h : c.txInv) :
    (c.apply_all txs).txInv := by
  induction txs generalizing c with
  | nil => exact h
  | cons t rest ih => exact ih _ (make_tx_txInv c t h)

theorem txInv_new (id : Nat) : (Client.new id).txInv := by
  intro p hp
  simp [Client.new] at hp

theorem can_make_tx_err (c : Client) (e : Error)
    (h : c.can_make_tx = some e) : e = .ClientLocked := by
  unfold Client.can_make_tx at h
  split at h
  · injection h with h
    exact h.symm
  · simp at h

theorem get_tx_err (c : Client) (i : Nat) (e : Error)
    (h : c.get_tx i = .error e) : e = .TransactionNotFound i := by
  unfold Client.get_tx at h
  split at h
  · injection h with h
    exact h.symm
  · simp at h

theorem tx_is_referrable_err (c : Client) (i : Nat) (e : Error)
    (h : c.tx_is_referrable i = some e) :
    (∃ j, e = .TransactionNotFound j) ∨ ∃ k, e = .InvalidTxType k := by
  unfold Client.tx_is_referrable at h
  split at h
  · rename_i e' hget
    injection h with h
    subst h
    exact .inl ⟨i, (get_tx_err c i e' hget).symm ▸ rfl⟩
  · split at h
    · simp at h
    · simp at h
    · rename_i k
      injection h with h
      exact .inr ⟨_, h.symm⟩

theorem dispute_no_missing_amount (c : Client) (i : Nat) (tv : Transaction)
    (hInv : ∀ p ∈ c.transactions, p.2.amount ≠ none)
    (hf : btFind c.transactions i = some tv) :
    (c.dispute i).2 ≠ some .WithoutAmount := by
  unfold Client.dispute
  split
  · rename_i e he
    rw [can_make_tx_err c e he]
    simp
  split
  · rename_i e he
    rcases tx_is_referrable_err c i e he with ⟨j, rfl⟩ | ⟨k, rfl⟩ <;> simp
  split
  · rename_i e he
    rw [get_tx_err c i e he]
    simp
  rename_i t hget
  dsimp only
  split
  · rename_i e herr
    obtain ⟨hnone, rfl⟩ := get_amount_err herr
    have ht : t = tv := by
      have := get_tx_ok c i t hget
      rw [hf] at this
      injection this with this
      exact this.symm
    subst ht
    have : t.amount ≠ none := hInv (i, t) (btFind_mem _ _ _ hf)
    exact absurd (by simpa [Transaction.dispute_amount] using hnone) this
  · simp

theorem resolve_no_missing_amount (c : Client) (i : Nat) (tv : Transaction)
    (hInv : ∀ p ∈ c.transactions, p.2.amount ≠ none)
    (hf : btFind c.transactions i = some tv) :
    (c.resolve i).2 ≠ some .WithoutAmount := by
  unfold Client.resolve
  split
  · rename_i e he
    rw [can_make_tx_err c e he]
    simp
  split
  · rename_i e he
    rcases tx_is_referrable_err c i e he with ⟨j, rfl⟩ | ⟨k, rfl⟩ <;> simp
  split
  · rename_i e he
    rw [get_tx_err c i e he]
    simp
  rename_i t hget
  split
  · simp
  split
  · rename_i e herr
    obtain ⟨hnone, rfl⟩ := get_amount_err herr
    have ht : t = tv := by
      have := get_tx_ok c i t hget
      rw [hf] at this
      injection this with this
      exact this.symm
    subst ht
    exact absurd hnone (hInv (i, t) (btFind_mem _ _ _ hf))
  · simp

theorem chargeback_no_missing_amount (c : Client) (i : Nat) (tv : Transaction)
    (hInv : ∀ p ∈ c.transactions, p.2.amount ≠ none)
    (hf : btFind c.transactions i = some tv) :
    (c.chargeback i).2 ≠ some .WithoutAmount := by
  unfold Client.chargeback
  split
  · rename_i e he
    rw [get_tx_err c i e he]
    simp
  rename_i t hget
  split
  · simp
  split
  · rename_i e herr
    obtain ⟨hnone, rfl⟩ := get_amount_err herr
    have ht : t = tv := by
      have := get_tx_ok c i t hget
      rw [hf] at this
      injection this with this
      exact this.symm
    subst ht
    exact absurd hnone (hInv (i, t) (btFind_mem _ _ _ hf))
  · simp

/-- C9: on every ledger reachable from a fresh client through `make_tx`,
every stored transaction is a Deposit or Withdrawal carrying an amount, and
consequently `dispute`, `resolve` and `chargeback` can never hit their
missing-amount (`WithoutAmount`) error branch on a stored tx id. -/
theorem c9_history_wellformed (id : Nat) (txs : List Transaction) :
    (∀ p ∈ ((Client.new id).apply_all txs).transactions,
        (p.2.tx_type = .Deposit ∨ p.2.tx_type = .Withdrawal) ∧
          p.2.amount ≠ none) ∧
    (∀ i tv,
        btFind ((Client.new id).apply_all txs).transactions i = some tv →
          (((Client.new id).apply_all txs).dispute i).2 ≠
              some .WithoutAmount ∧
            (((Client.new id).apply_all txs).resolve i).2 ≠
              some .WithoutAmount ∧
            (((Client.new id).apply_all txs).chargeback i).2 ≠
              some .WithoutAmount) := by
  have hinv := apply_all_txInv txs (Client.new id) (txInv_new id)
  refine ⟨hinv, fun i tv hf => ?_⟩
  have hAmt : ∀ p ∈ ((Client.new id).apply_all txs).transactions,
      p.2.amount ≠ none := fun p hp => (hinv p hp).2
  exact ⟨dispute_no_missing_amount _ i tv hAmt hf,
    resolve_no_missing_amount _ i tv hAmt hf,
    chargeback_no_missing_amount _ i tv hAmt hf⟩

theorem c9_history_wellformed_witness :
    ((((⟨.Deposit, 1, 1, some 1, false⟩ : Transaction)).tx_type = .Deposit ∨
        ((⟨.Deposit, 1, 1, some 1, false⟩ : Transaction)).tx_type =
          .Withdrawal) ∧
      ((⟨.Deposit, 1, 1, some 1, false⟩ : Transaction)).amount ≠ none) ∧
    (((Client.new 1).apply_all
        [⟨.Deposit, 1, 1, some 1, false⟩]).dispute 1).2 ≠
      some .WithoutAmount :=
  ⟨(c9_history_wellformed 1 [⟨.Deposit, 1, 1, some 1, false⟩]).1
      (1, ⟨.Deposit, 1, 1, some 1, false⟩) (by decide),
    ((c9_history_wellformed 1 [⟨.Deposit, 1, 1, some 1, false⟩]).2 1
        ⟨.Deposit, 1, 1, some 1, false⟩ (by decide)).1⟩

theorem btInsert_pairwise {α : Type} (m : List (Nat × α)) (k : Nat) (v : α)
    (h : List.Pairwise (fun p q => p.1 < q.1) m) :
    List.Pairwise (fun p q => p.1 < q.1) (btInsert m k v) := by
  induction m with
  | nil => simp [btInsert]
  | cons q rest ih =>
    rw [List.pairwise_cons] at h
    obtain ⟨hq, hrest⟩ := h
    unfold btInsert
    split
    · rename_i hlt
      refine List.Pairwise.cons ?_ (List.Pairwise.cons hq hrest)
      intro r hr
      rcases List.mem_cons.mp hr with rfl | hr
      · exact hlt
      · exact Nat.lt_trans hlt (hq r hr)
    · split
      · rename_i hlt heq
        refine List.Pairwise.cons ?_ hrest
        intro r hr
        rw [heq]
        exact hq r hr
      · rename_i hlt heq
        refine List.Pairwise.cons ?_ (ih hrest)
        intro r hr
        rcases mem_btInsert hr with rfl | hr
        · dsimp only
          omega
        · exact hq r hr

theorem or_insert_pairwise (m : List (Nat × Client)) (id : Nat)
    (h : List.Pairwise (fun p q => p.1 < q.1) m) :
    List.Pairwise (fun p q => p.1 < q.1) (or_insert m id) := by
  unfold or_insert
  split
  · exact h
  · exact btInsert_pairwise m id (Client.new id) h

theorem process_pairwise (txs : List Transaction) (m : List (Nat × Client))
    (r : List (Nat × Client))
    (h : List.Pairwise (fun p q => p.1 < q.1) m)
    (hp : process_transactions txs m = .ok r) :
    List.Pairwise (fun p q => p.1 < q.1) r := by
  induction txs generalizing m with
  | nil =>
    unfold process_transactions at hp
    injection hp with hp
    rw [← hp]
    exact h
  | cons t rest ih =>
    unfold process_transactions at hp
    dsimp only at hp
    split at hp
    · simp at hp
    · rename_i c hfc
      split at hp
      · rename_i c' hmk
        exact ih _ (btInsert_pairwise _ _ _ (or_insert_pairwise m t.client h)) hp
      · rename_i c' e hmk
        split at hp
        · exact ih _ (btInsert_pairwise _ _ _ (or_insert_pairwise m t.client h)) hp
        · simp at hp

/-- C3 counterexample: the registry is a `BTreeMap`, so output rows come in
ascending client-id order, not in first-seen order. With client 2 first in the
input and client 1 second, first-seen order is `[2, 1]` but the emitted order
is `[1, 2]`. -/
theorem c3_counterexample :
    ((process_transactions
        [⟨.Deposit, 2, 1, some 1, false⟩, ⟨.Deposit, 1, 2, some 1, false⟩]
        []).toOption.getD []).map Prod.fst = [1, 2] ∧
    firstSeen
        [⟨.Deposit, 2, 1, some 1, false⟩, ⟨.Deposit, 1, 2, some 1, false⟩] =
      [2, 1] ∧
    ([1, 2] : List Nat) ≠ [2, 1] := by
  decide

/-- C3 amended: the registry (`BTreeMap<u16, Client>`) emits one row per
client in strictly ascending client-id order; this coincides with first-seen
order only when clients happen to first appear in ascending order. -/
theorem c3_registry_sorted (txs : List Transaction) (r : List (Nat × Client))
    (h : process_transactions txs [] = .ok r) :
    List.Pairwise (fun a b => a < b) (r.map Prod.fst) := by
  have hp := process_pairwise txs [] r (by simp) h
  exact List.pairwise_map.mpr hp

theorem c3_registry_sorted_witness :
    List.Pairwise (fun a b => a < b)
      (((process_transactions
          [⟨.Deposit, 2, 1, some 1, false⟩, ⟨.Deposit, 1, 2, some 1, false⟩]
          []).toOption.getD []).map Prod.fst) :=
  c3_registry_sorted
    [⟨.Deposit, 2, 1, some 1, false⟩, ⟨.Deposit, 1, 2, some 1, false⟩] _
    (by rfl)

end Proofs

end Tz
